import Mathlib

/-!
Verification of the brackets-sass node domain (`src/node/2.0.1/SASSDomain.js`).

The development shallowly embeds the parts of the domain module the claims
are about:

* a POSIX model of the Node `path` functions the module uses
  (`resolve`, `relative`, `normalize`, `dirname`, `basename`, `join`);
* the pure path-rewriting callbacks of `render` and `preview`
  (source-map `sources` rewriting, error path/message rewriting,
  `_removePathFromErrorString`);
* the temp-folder registry of `preview`/`deleteTempFiles`;
* the worker/dispatcher state machine (`_createChildProcess`,
  `_nextRender`, the message/error/exit listeners and the 10 s timeout),
  as an explicit event-step function over the module-level mutable state
  (`_queue`, `_currentRenderMsg`, `_compilerProcess`).

JavaScript objects that matter only through their keys (the synthesized
fatal crash error) are modelled as association lists so that the exact
shape of the object literal is preserved.
-/

namespace SassDomain

/-! ### POSIX path model

The module runs `path.resolve`, `path.relative`, `path.normalize`,
`path.dirname`, `path.basename` and `path.join` on POSIX-style paths
(`path.sep = "/"`).  Paths are modelled as strings, manipulated through
their component lists.  All callers in the module pass absolute base
paths to `resolve`/`relative`; the model assumes that. -/

/-- Split a character stream at `'/'`, dropping empty components.
`cur` is the reversed current component, `out` the reversed output. -/
def splitCompAux (cur : List Char) (out : List String) : List Char → List String
  | [] => (if cur.isEmpty then out else String.mk cur.reverse :: out).reverse
  | c :: cs =>
    if c = '/' then
      splitCompAux [] (if cur.isEmpty then out else String.mk cur.reverse :: out) cs
    else
      splitCompAux (c :: cur) out cs

/-- Path components of a string, e.g. `"/proj/out/a.css" ↦ ["proj", "out", "a.css"]`. -/
def splitComp (s : String) : List String :=
  splitCompAux [] [] s.data

/-- True when the path string starts with `'/'`. -/
def isAbsPath (s : String) : Bool :=
  match s.data with
  | c :: _ => c = '/'
  | [] => false

/-- Normalization of components with absolute-path semantics: `"."` is
dropped, `".."` pops the previous component and is discarded at the root.
`acc` is the reversed output stack. -/
def normAbsAux (acc : List String) : List String → List String
  | [] => acc.reverse
  | c :: cs =>
    if c = "." then normAbsAux acc cs
    else if c = ".." then normAbsAux acc.tail cs
    else normAbsAux (c :: acc) cs

/-- Normalization of components with relative-path semantics: leading
`".."` components are kept. -/
def normRelAux (acc : List String) : List String → List String
  | [] => acc.reverse
  | c :: cs =>
    if c = "." then normRelAux acc cs
    else if c = ".." then
      match acc with
      | [] => normRelAux [".."] cs
      | a :: rest => if a = ".." then normRelAux (".." :: acc) cs else normRelAux rest cs
    else normRelAux (c :: acc) cs

/-- Join components into an absolute path string; the empty list is the root `"/"`. -/
def joinAbs (cs : List String) : String :=
  match cs with
  | [] => "/"
  | _ => cs.foldl (fun acc c => acc ++ "/" ++ c) ""

/-- Join components into a relative path string; the empty list is `""`. -/
def joinRel (cs : List String) : String :=
  match cs with
  | [] => ""
  | c :: rest => rest.foldl (fun acc x => acc ++ "/" ++ x) c

/-- Model of `path.resolve(base, p)` for an absolute `base`. -/
def presolve (base p : String) : String :=
  if isAbsPath p then joinAbs (normAbsAux [] (splitComp p))
  else joinAbs (normAbsAux [] (splitComp base ++ splitComp p))

/-- Model of one-argument `path.resolve(p)` for the absolute paths the
module's callers pass (a relative path would be resolved against the
process working directory, which never happens here). -/
def resolve1 (p : String) : String :=
  if isAbsPath p then joinAbs (normAbsAux [] (splitComp p)) else p

/-- Model of `path.normalize(p)` on separator-normalized POSIX paths. -/
def pnormalize (p : String) : String :=
  if isAbsPath p then joinAbs (normAbsAux [] (splitComp p))
  else joinRel' (normRelAux [] (splitComp p))
where
  joinRel' (cs : List String) : String :=
    match cs with
    | [] => "."
    | _ => joinRel cs

/-- Drop the longest common component prefix of two component lists. -/
def dropCommon : List String → List String → List String × List String
  | a :: as, b :: bs => if a = b then dropCommon as bs else (a :: as, b :: bs)
  | as, bs => (as, bs)

/-- Model of `path.relative(f, t)` for absolute `f` and `t`. -/
def prel (f t : String) : String :=
  let p := dropCommon (normAbsAux [] (splitComp f)) (normAbsAux [] (splitComp t))
  joinRel (List.replicate p.1.length ".." ++ p.2)

/-- Model of `path.dirname`. -/
def pdirname (s : String) : String :=
  if isAbsPath s then joinAbs (splitComp s).dropLast
  else
    match (splitComp s).dropLast with
    | [] => "."
    | cs => joinRel cs

/-- Model of `path.basename`. -/
def pbasename (s : String) : String :=
  match (splitComp s).getLast? with
  | some b => b
  | none => ""

/-- Model of `path.join(a, b)`: concatenate with a separator and normalize. -/
def pjoin (a b : String) : String :=
  pnormalize (a ++ "/" ++ b)

/-- Boolean substring test: does `pat` occur inside `s`?
Models the JavaScript `s.indexOf(pat) >= 0` test. -/
def containsAux (pat : List Char) : List Char → Bool
  | [] => pat.isEmpty
  | c :: cs => pat.isPrefixOf (c :: cs) || containsAux pat cs

/-- String-level substring containment. -/
def containsSubstr (s pat : String) : Bool :=
  containsAux pat.data s.data

/-! ### Errors, results and the pure rewriting callbacks -/

/-- The fields of a compiler error record that the rewriting code touches
(`error.path` and `error.message`). -/
structure PErr where
  path : String
  message : String
deriving DecidableEq

/-- A source map value: `sources` is `some` exactly when `map.sources` is
an array (`Array.isArray(map.sources)`). -/
structure PMap where
  sources : Option (List String)
deriving DecidableEq

/-- A render result: `map` is `some` exactly when the result object has a
`map` field; `error` models the optional in-band `result.error`. -/
structure PResult where
  css : String
  map : Option PMap
  error : Option PErr
deriving DecidableEq

/-- Remove every occurrence of `pat` from the character list, scanning
left to right without rescanning emitted output: the semantics of the
JavaScript `str.replace(new RegExp(pat, "g"), "")` for a pattern free of
regular-expression metacharacters.  `fuel` bounds the recursion; it is
instantiated with the length of the subject, which suffices because every
step consumes at least one character when `pat` is nonempty. -/
def removeAllAux (pat : List Char) : Nat → List Char → List Char
  | 0, l => l
  | _ + 1, [] => []
  | fuel + 1, c :: cs =>
    if pat.isPrefixOf (c :: cs) then removeAllAux pat fuel ((c :: cs).drop pat.length)
    else c :: removeAllAux pat fuel cs

/-- `_removePathFromErrorString(errorString, path)`:
`errorString.replace(new RegExp(path, "g"), "")`.  The paths substituted
by the module (`tmpDirPath`) contain no regex metacharacters on POSIX, so
the regex matches the literal string. -/
def removePathFromErrorString (errorString p : String) : String :=
  String.mk (removeAllAux p.data errorString.data.length errorString.data)

/-- The per-error rewrite applied by `preview`'s completion callback
(`SASSDomain.js` lines 335–345): an error path equal (after
normalization) to the staged entry file becomes the caller's original
`file`; any other error path is resolved against `tmpFolder`; the
`tmpDirPath` prefix string is removed from the message. -/
def previewErrorRewrite (file tmpFile tmpFolder tmpDirPath : String) (e : PErr) : PErr :=
  let normalizedTempFilePath := pnormalize tmpFile
  let normalizedErrorPath := pnormalize e.path
  { path := if normalizedErrorPath = normalizedTempFilePath then file
            else presolve tmpFolder e.path,
    message := removePathFromErrorString e.message tmpDirPath }

/-- The per-source rewrite applied by `preview`'s completion callback to
`map.sources` (lines 356–367): resolve against `tmpOutFolder`; paths that
contain `tmpDirPath` are re-expressed relative to `tmpOutFolder`, paths
that escaped the staging tree relative to `originalParent`. -/
def previewSourceRewrite (tmpOutFolder tmpDirPath originalParent source : String) : String :=
  let absPath := presolve tmpOutFolder source
  if containsSubstr absPath tmpDirPath then prel tmpOutFolder absPath
  else prel originalParent absPath

/-- The completion callback `preview` passes to `render` (lines 323–378),
as a fallible function: `Except.error` models an uncaught JavaScript
exception thrown before the caller's callback is reached, `Except.ok`
carries the `(errors, result)` pair the caller's callback receives.
Because the JavaScript mutates the error records in place, the rewritten
errors are visible both through `errors` and through `result.error`. -/
def previewRenderCb (file tmpFile tmpFolder tmpDirPath tmpOutFolder originalParent : String)
    (errors : Option (List PErr)) (result : Option PResult) :
    Except String (Option (List PErr) × Option PResult) :=
  let rw := previewErrorRewrite file tmpFile tmpFolder tmpDirPath
  let errorsToProcessLen :=
    (match errors with | some l => l.length | none => 0) +
    (match result with
     | some r => match r.error with | some _ => 1 | none => 0
     | none => 0)
  let errors1 : Option (List PErr) :=
    if errorsToProcessLen ≠ 0 then
      match errors with | some l => some (l.map rw) | none => none
    else errors
  let result1 : Option PResult :=
    if errorsToProcessLen ≠ 0 then
      match result with
      | some r => some { r with error := r.error.map rw }
      | none => none
    else result
  match result1 with
  | some r =>
    match r.map with
    | none =>
      -- `var map = result.map; if (Array.isArray(map.sources))` with
      -- `map` undefined: property access on undefined throws.
      Except.error "TypeError: cannot read property sources of undefined"
    | some m =>
      match m.sources with
      | some srcs =>
        Except.ok (errors1, some { r with map := some (PMap.mk
          (some (srcs.map (previewSourceRewrite tmpOutFolder tmpDirPath originalParent)))) })
      | none => Except.ok (errors1, some r)
  | none => Except.ok (errors1, none)

/-- The source-map `sources` rewrite performed by `render`'s `_callback`
wrapper (lines 244–260): each entry is resolved against the output
folder; entries that normalize to the compiled entry `file` are
`unshift`ed (prepended), others are pushed, each re-expressed relative to
the output folder. -/
def renderNewSources (file outFolder : String) (sources : List String) : List String :=
  sources.foldl
    (fun newSources source =>
      if pnormalize (presolve outFolder source) = file then
        prel outFolder file :: newSources
      else
        newSources ++ [prel outFolder (presolve outFolder source)])
    []

/-- `render`'s `_callback` wrapper (lines 240–267): rewrites
`result.map.sources` when the result carries a map with a sources array,
then forwards to the caller's callback.  This wrapper guards the map
access (`result && result.map`), unlike `preview`'s callback. -/
def renderCb (file outFile : String) (errors : Option (List PErr)) (result : Option PResult) :
    Option (List PErr) × Option PResult :=
  match result with
  | none => (errors, none)
  | some r =>
    match r.map with
    | none => (errors, some r)
    | some m =>
      match m.sources with
      | none => (errors, some r)
      | some srcs =>
        (errors, some { r with map := some ⟨some (renderNewSources file (pdirname outFile) srcs)⟩ })

/-! ### Temp-folder registry (`tmpFolders`, `deleteTempFiles`) -/

/-- The state `deleteTempFiles` operates on: the directories existing on
disk (each string standing for a directory tree) and the `tmpFolders`
registry populated by `preview`. -/
structure TmpFS where
  dirs : List String
  tmpFolders : List String
deriving DecidableEq

/-- Model of `fsextra.removeSync(d)`: removes the directory and anything
below it; removing a non-existent directory is a no-op and raises no
error. -/
def removeSync (dirs : List String) (d : String) : List String :=
  dirs.filter (fun p => !(p == d || (d ++ "/").data.isPrefixOf p.data))

/-- `deleteTempFiles` (lines 381–387): `removeSync` every registered
folder, then reset the registry to `[]`. -/
def deleteTempFiles (st : TmpFS) : TmpFS :=
  { dirs := st.tmpFolders.foldl removeSync st.dirs, tmpFolders := [] }

/-! ### The worker/dispatcher state machine

The module-level mutable state (`_queue`, `_currentRenderMsg`,
`_compilerProcess`) and the per-dispatch listeners and timer of
`_nextRender` are modelled as an explicit state acted on by events: a
`render`/`preview` call enqueuing a request, a worker `message`, a worker
`error`, a worker `exit`, and the 10-second timer firing.  Node's event
loop is single threaded, so each event's handler runs to completion
before the next event; one `step` of the machine is one such handler
run.  Callback invocations are recorded in `completions` rather than
executed, and ghost fields (`dispatched`, `exited`) record the send
order and the pids of exited processes for stating invariants. -/

/-- A value inside a JavaScript error object: a string, or a nested
one-field numeric object such as `{ch: 0}`. -/
inductive EField
  | s (v : String)
  | nObj (key : String) (v : Int)
deriving DecidableEq

/-- A JavaScript error object, modelled as its ordered field list. -/
abbrev JErr : Type := List (String × EField)

/-- The success payload built by `messageListener` for a `css` message:
`{css: message.css, map: JSON.parse(message.map), error: message.error}`
(the parsed map is kept as its source text, which is all the dispatcher
claims need). -/
structure RResult where
  css : String
  map : String
  error : Option JErr
deriving DecidableEq

/-- The argument shapes with which a request's completion callback can be
invoked: an error list (`callback([message.error])`, `callback([fatal])`),
the raw error of the worker `error` event (`callback(err)`), or a success
(`callback(null, result)`). -/
inductive CbArg
  | errs (l : List JErr)
  | raw (e : JErr)
  | success (r : RResult)
deriving DecidableEq

/-- Messages the worker can send: non-terminal `{log}`, terminal
`{css, map, error?}`, terminal `{error}`. -/
inductive WMsg
  | log (s : String)
  | css (css map : String) (error : Option JErr)
  | error (e : JErr)

/-- Events driving the machine. -/
inductive Event
  | render (file : String)
  | message (m : WMsg)
  | procError (e : JErr)
  | procExit (code : Option Int) (signal : String)
  | timeout

/-- A queued render message: its position in the submission order and its
`file` field (`path.resolve(file)`, line 229), which the fatal-crash
error references.  The callback is identified by `id`. -/
structure Req where
  id : Nat
  file : String
deriving DecidableEq

/-- The `_compilerProcess` handle: a pid, and whether `kill()` has been
called on it. -/
structure Proc where
  pid : Nat
  killed : Bool
deriving DecidableEq

/-- The in-flight request of `_nextRender` together with its per-dispatch
state: the pid of the process it was sent to, whether each `once`
listener is still attached, and whether the timeout is still armed. -/
structure InFlight where
  req : Req
  pid : Nat
  msgAttached : Bool
  errAttached : Bool
  exitAttached : Bool
  timerArmed : Bool
deriving DecidableEq

/-- The machine state. -/
structure MState where
  queue : List Req
  current : Option InFlight
  proc : Option Proc
  nextPid : Nat
  nextId : Nat
  dispatched : List Nat
  completions : List (Nat × CbArg)
  logSink : List String
  exited : List Nat
deriving DecidableEq

/-- The initial state: empty queue, no in-flight request, no process. -/
def initState : MState :=
  { queue := [], current := none, proc := none, nextPid := 0, nextId := 0,
    dispatched := [], completions := [], logSink := [], exited := [] }

/-- `_createChildProcess` (lines 126–137): reuse the live handle, or fork
a fresh process (whose persistent `exit` handler will clear the handle). -/
def createChildProcess (s : MState) : Proc × MState :=
  match s.proc with
  | some p => (p, s)
  | none =>
    let p : Proc := ⟨s.nextPid, false⟩
    (p, { s with proc := some p, nextPid := s.nextPid + 1 })

/-- `_nextRender` (lines 139–219): if no request is in flight and the
queue is non-empty, shift the head, ensure a worker, arm the timeout,
attach the three `once` listeners, and send the request (recorded in
`dispatched`). -/
def nextRender (s : MState) : MState :=
  match s.current, s.queue with
  | none, r :: rest =>
    let x := createChildProcess { s with queue := rest }
    { x.2 with
      current := some ⟨r, x.1.pid, true, true, true, true⟩,
      dispatched := x.2.dispatched ++ [r.id] }
  | _, _ => s

/-- `cleanup` (lines 159–168): clear the in-flight slot, clear the
timeout, detach the listeners, then call `_nextRender`. -/
def cleanup (s : MState) : MState :=
  nextRender { s with current := none }

/-- The synthesized fatal-crash error object of `exitListener`
(lines 200–208): `{errorString, path: renderMsg.file, pos: {ch: 0},
message: errorString}` with
`errorString = "Fatal node-sass error, signal=" + signal`. -/
def fatalErrObj (signal file : String) : JErr :=
  let errString := "Fatal node-sass error, signal=" ++ signal
  [("errorString", EField.s errString),
   ("path", EField.s file),
   ("pos", EField.nObj "ch" 0),
   ("message", EField.s errString)]

/-- `render`/`preview` enqueuing a request (lines 269–270): push the
render message (with `file` resolved) and attempt dispatch. -/
def handleRender (s : MState) (file : String) : MState :=
  let req : Req := ⟨s.nextId, resolve1 file⟩
  nextRender { s with queue := s.queue ++ [req], nextId := s.nextId + 1 }

/-- A worker `message` event.  The listener was attached with
`childProcess.once("message", messageListener)` (line 214), so it is
removed by the first message of any kind; `messageListener`
(lines 170–190) then logs a `log` message, or resolves the request for a
terminal `css`/`error` message (`cleanup()` runs before the callback, so
the next request is dispatched before the completion is recorded). -/
def handleMessage (s : MState) (m : WMsg) : MState :=
  match s.current, s.proc with
  | some fl, some _ =>
    if fl.msgAttached then
      match m with
      | WMsg.log str =>
        { s with current := some { fl with msgAttached := false },
                 logSink := s.logSink ++ [str] }
      | WMsg.css c mp e =>
        let s1 := cleanup s
        { s1 with completions := s1.completions ++ [(fl.req.id, CbArg.success ⟨c, mp, e⟩)] }
      | WMsg.error e =>
        let s1 := cleanup s
        { s1 with completions := s1.completions ++ [(fl.req.id, CbArg.errs [e])] }
    else s
  | _, _ => s

/-- A worker `error` event: `errorListener` (lines 192–195) cleans up and
passes the raw error to the callback. -/
def handleProcError (s : MState) (e : JErr) : MState :=
  match s.current, s.proc with
  | some fl, some _ =>
    let s1 := cleanup s
    { s1 with completions := s1.completions ++ [(fl.req.id, CbArg.raw e)] }
  | _, _ => s

/-- A worker `exit` event.  Listeners fire in registration order: the
persistent handler of `_createChildProcess` clears `_compilerProcess`
first; then, if a request is in flight, its `once` `exitListener`
(lines 197–212) cleans up (possibly dispatching the next request onto a
freshly forked worker) and, only when `code === null` (killed by a
signal), synthesizes the fatal-crash error; a non-null exit code invokes
no callback. -/
def handleProcExit (s : MState) (code : Option Int) (signal : String) : MState :=
  match s.proc with
  | none => s
  | some p =>
    let s1 := { s with proc := none, exited := s.exited ++ [p.pid] }
    match s.current with
    | none => s1
    | some fl =>
      let s2 := cleanup s1
      match code with
      | some _ => s2
      | none =>
        { s2 with completions :=
            s2.completions ++ [(fl.req.id, CbArg.errs [fatalErrObj signal fl.req.file])] }

/-- The 10-second timeout firing (lines 155–157): if still armed, it
force-kills the worker (`childProcess.kill()`); nothing else changes —
the resolution happens at the subsequent `exit` event. -/
def handleTimeout (s : MState) : MState :=
  match s.current with
  | none => s
  | some fl =>
    if fl.timerArmed then
      let s1 := { s with current := some { fl with timerArmed := false } }
      match s1.proc with
      | none => s1
      | some p => { s1 with proc := some { p with killed := true } }
    else s

/-- One event-handler run. -/
def step (s : MState) (e : Event) : MState :=
  match e with
  | Event.render file => handleRender s file
  | Event.message m => handleMessage s m
  | Event.procError e => handleProcError s e
  | Event.procExit code signal => handleProcExit s code signal
  | Event.timeout => handleTimeout s

/-- The state after a sequence of events from the initial state. -/
def runEvents (tr : List Event) : MState :=
  tr.foldl step initState

/-- A path lies inside the staging root `tmpDirPath` (it is the root
itself or has it as a directory prefix, after normalization). -/
def insideStaging (tmpDirPath p : String) : Bool :=
  (tmpDirPath ++ "/").data.isPrefixOf (pnormalize p).data || pnormalize p == tmpDirPath

/-- The caller-space ("real project") path corresponding to a staged
path: the staging-root prefix stripped from the normalized path. -/
def stripStagingPrefix (tmpDirPath p : String) : String :=
  String.mk ((pnormalize p).data.drop tmpDirPath.length)

/-! ### The dispatcher invariant -/

/-- The machine invariant: requests are numbered in submission order, the
dispatch log is exactly the first `k` requests in order, the queue holds
the remaining ids in order, the in-flight request (if any) is the most
recently dispatched one with its `error`/`exit` listeners attached and a
live process handle of matching pid, recorded completions are strictly
increasing in id and precede the in-flight request, and the process
handle (if any) was never exited and has a pid below the fork counter. -/
def Inv (s : MState) : Prop :=
  ∃ k,
    s.dispatched = List.range k ∧
    s.queue.map Req.id = List.range' k s.queue.length ∧
    s.nextId = k + s.queue.length ∧
    (∀ fl, s.current = some fl →
        fl.req.id + 1 = k ∧ fl.errAttached = true ∧ fl.exitAttached = true ∧
        ∃ p, s.proc = some p ∧ p.pid = fl.pid) ∧
    List.Pairwise (· < ·) (s.completions.map Prod.fst) ∧
    (∀ c ∈ s.completions.map Prod.fst, c < k) ∧
    (∀ fl, s.current = some fl → ∀ c ∈ s.completions.map Prod.fst, c < fl.req.id) ∧
    (∀ p, s.proc = some p → p.pid ∉ s.exited ∧ p.pid < s.nextPid) ∧
    (∀ e ∈ s.exited, e < s.nextPid)

theorem inv_initState : Inv initState := by
  refine ⟨0, ?_, ?_, ?_, ?_, ?_, ?_, ?_, ?_, ?_⟩ <;> simp [initState]

theorem range'_snoc (s n : Nat) : List.range' s (n + 1) = List.range' s n ++ [s + n] := by
  induction n generalizing s with
  | zero => simp [List.range'_succ]
  | succ n ih =>
    rw [List.range'_succ s (n + 1) 1, ih (s + 1), List.range'_succ s n 1]
    simp [Nat.add_assoc, Nat.add_comm 1 n]

theorem inv_nextRender (s : MState) (h : Inv s) : Inv (nextRender s) := by
  obtain ⟨k, h1, h2, h3, h4, h5, h6, h7, h8, h9⟩ := h
  cases hc : s.current with
  | some fl =>
    have he : nextRender s = s := by
      unfold nextRender
      rw [hc]
    rw [he]
    exact ⟨k, h1, h2, h3, h4, h5, h6, h7, h8, h9⟩
  | none =>
    cases hq : s.queue with
    | nil =>
      have he : nextRender s = s := by
        unfold nextRender
        rw [hc, hq]
      rw [he]
      exact ⟨k, h1, h2, h3, h4, h5, h6, h7, h8, h9⟩
    | cons r rest =>
      have hr : r.id = k ∧ rest.map Req.id = List.range' (k + 1) rest.length := by
        have h2' := h2
        rw [hq] at h2'
        simp [List.range'_succ] at h2'
        exact h2'
      have hlen : s.nextId = k + (rest.length + 1) := by
        rw [h3, hq]
        simp
      cases hp : s.proc with
      | some p =>
        obtain ⟨hpid1, hpid2⟩ := h8 p hp
        have he : nextRender s =
            { s with queue := rest,
                     current := some ⟨r, p.pid, true, true, true, true⟩,
                     dispatched := s.dispatched ++ [r.id] } := by
          unfold nextRender createChildProcess
          rw [hc, hq]
          simp [hp]
        rw [he]
        refine ⟨k + 1, ?_, ?_, ?_, ?_, ?_, ?_, ?_, ?_, ?_⟩
        · show s.dispatched ++ [r.id] = List.range (k + 1)
          rw [h1, hr.1, List.range_succ]
        · simpa using hr.2
        · show s.nextId = k + 1 + rest.length
          omega
        · intro fl hfl
          obtain rfl := Option.some.inj hfl
          refine ⟨?_, rfl, rfl, p, hp, rfl⟩
          show r.id + 1 = k + 1
          rw [hr.1]
        · exact h5
        · intro c hcm
          exact Nat.lt_succ_of_lt (h6 c hcm)
        · intro fl hfl c hcm
          obtain rfl := Option.some.inj hfl
          show c < r.id
          rw [hr.1]
          exact h6 c hcm
        · intro q hqq
          have hq2 : s.proc = some q := hqq
          rw [hp] at hq2
          obtain rfl := Option.some.inj hq2
          exact ⟨hpid1, hpid2⟩
        · exact h9
      | none =>
        have he : nextRender s =
            { s with queue := rest,
                     current := some ⟨r, s.nextPid, true, true, true, true⟩,
                     dispatched := s.dispatched ++ [r.id],
                     proc := some ⟨s.nextPid, false⟩,
                     nextPid := s.nextPid + 1 } := by
          unfold nextRender createChildProcess
          rw [hc, hq]
          simp [hp]
        rw [he]
        refine ⟨k + 1, ?_, ?_, ?_, ?_, ?_, ?_, ?_, ?_, ?_⟩
        · show s.dispatched ++ [r.id] = List.range (k + 1)
          rw [h1, hr.1, List.range_succ]
        · simpa using hr.2
        · show s.nextId = k + 1 + rest.length
          omega
        · intro fl hfl
          obtain rfl := Option.some.inj hfl
          refine ⟨?_, rfl, rfl, ⟨s.nextPid, false⟩, rfl, rfl⟩
          show r.id + 1 = k + 1
          rw [hr.1]
        · exact h5
        · intro c hcm
          exact Nat.lt_succ_of_lt (h6 c hcm)
        · intro fl hfl c hcm
          obtain rfl := Option.some.inj hfl
          show c < r.id
          rw [hr.1]
          exact h6 c hcm
        · intro q hqq
          obtain rfl := Option.some.inj hqq
          refine ⟨?_, Nat.lt_succ_self _⟩
          show s.nextPid ∉ s.exited
          intro hmem
          exact absurd (h9 _ hmem) (Nat.lt_irrefl _)
        · intro e hmem
          exact Nat.lt_succ_of_lt (h9 e hmem)

theorem nextRender_completions (t : MState) : (nextRender t).completions = t.completions := by
  unfold nextRender createChildProcess
  cases t.current <;> cases t.queue <;> cases t.proc <;> rfl

theorem nextRender_dispatched_mem (t : MState) (x : Nat) (h : x ∈ t.dispatched) :
    x ∈ (nextRender t).dispatched := by
  unfold nextRender createChildProcess
  cases t.current <;> cases t.queue <;> cases t.proc <;> simp <;>
    first
    | exact h
    | exact Or.inl h

theorem nextRender_current_of_none (t : MState) (h : t.current = none) :
    (t.queue = [] ∧ nextRender t = t) ∨
    ∃ r rest, t.queue = r :: rest ∧
      ∃ pid, (nextRender t).current = some ⟨r, pid, true, true, true, true⟩ := by
  cases hq : t.queue with
  | nil =>
    left
    refine ⟨rfl, ?_⟩
    unfold nextRender
    rw [h, hq]
  | cons r rest =>
    right
    refine ⟨r, rest, rfl, ?_⟩
    unfold nextRender createChildProcess
    rw [h, hq]
    cases t.proc <;> exact ⟨_, rfl⟩

theorem inv_clearCurrent (s : MState) (h : Inv s) : Inv { s with current := none } := by
  obtain ⟨k, h1, h2, h3, h4, h5, h6, h7, h8, h9⟩ := h
  refine ⟨k, h1, h2, h3, ?_, h5, h6, ?_, h8, h9⟩
  · intro fl hfl
    cases hfl
  · intro fl hfl
    cases hfl

theorem inv_append_completion (u : MState) (hu : Inv u) (i : Nat) (arg : CbArg)
    (hlt : ∀ c ∈ u.completions.map Prod.fst, c < i)
    (hik : i ∈ u.dispatched)
    (hcur : ∀ fl, u.current = some fl → i < fl.req.id) :
    Inv { u with completions := u.completions ++ [(i, arg)] } := by
  obtain ⟨k, h1, h2, h3, h4, h5, h6, h7, h8, h9⟩ := hu
  have hik' : i < k := by
    rw [h1] at hik
    exact List.mem_range.mp hik
  refine ⟨k, h1, h2, h3, h4, ?_, ?_, ?_, h8, h9⟩
  · show List.Pairwise (· < ·) ((u.completions ++ [(i, arg)]).map Prod.fst)
    rw [List.map_append, List.pairwise_append]
    refine ⟨h5, by simp, ?_⟩
    intro a ha b hb
    simp at hb
    rw [hb]
    exact hlt a ha
  · intro c hcm
    rw [show ({ u with completions := u.completions ++ [(i, arg)] } : MState).completions
          = u.completions ++ [(i, arg)] from rfl, List.map_append, List.mem_append] at hcm
    cases hcm with
    | inl hmem => exact h6 c hmem
    | inr hmem =>
      simp at hmem
      rw [hmem]
      exact hik'
  · intro fl hfl c hcm
    rw [show ({ u with completions := u.completions ++ [(i, arg)] } : MState).completions
          = u.completions ++ [(i, arg)] from rfl, List.map_append, List.mem_append] at hcm
    cases hcm with
    | inl hmem => exact h7 fl hfl c hmem
    | inr hmem =>
      simp at hmem
      rw [hmem]
      exact hcur fl hfl

theorem inv_cleanup_complete (s t : MState) (fl : InFlight) (arg : CbArg)
    (h : Inv s) (hc : s.current = some fl)
    (hq : t.queue = s.queue) (hd : t.dispatched = s.dispatched)
    (hcmp : t.completions = s.completions)
    (htc : t.current = none)
    (hInvT : Inv t) :
    Inv { nextRender t with completions :=
          (nextRender t).completions ++ [(fl.req.id, arg)] } := by
  obtain ⟨k, h1, h2, h3, h4, h5, h6, h7, h8, h9⟩ := h
  obtain ⟨hflk, -, -, -⟩ := h4 fl hc
  apply inv_append_completion (nextRender t) (inv_nextRender t hInvT)
  · rw [nextRender_completions, hcmp]
    exact h7 fl hc
  · apply nextRender_dispatched_mem
    rw [hd, h1]
    exact List.mem_range.mpr (by omega)
  · intro fl' hfl'
    rcases nextRender_current_of_none t htc with ⟨hqnil, heq⟩ | ⟨r, rest, hq', pid, hcur'⟩
    · rw [heq, htc] at hfl'
      cases hfl'
    · rw [hcur'] at hfl'
      obtain rfl := Option.some.inj hfl'
      show fl.req.id < r.id
      have hsq : s.queue = r :: rest := by rw [← hq, hq']
      have h2' := h2
      rw [hsq] at h2'
      simp [List.range'_succ] at h2'
      omega

theorem inv_exitClear (s : MState) (p : Proc) (h : Inv s) (hp : s.proc = some p) :
    Inv { s with proc := none, exited := s.exited ++ [p.pid], current := none } := by
  obtain ⟨k, h1, h2, h3, h4, h5, h6, h7, h8, h9⟩ := h
  refine ⟨k, h1, h2, h3, ?_, h5, h6, ?_, ?_, ?_⟩
  · intro fl hfl
    cases hfl
  · intro fl hfl
    cases hfl
  · intro q hq
    cases hq
  · intro e hmem
    have hmem' : e ∈ s.exited ++ [p.pid] := hmem
    rw [List.mem_append] at hmem'
    cases hmem' with
    | inl hm => exact h9 e hm
    | inr hm =>
      simp at hm
      rw [hm]
      exact (h8 p hp).2

theorem inv_handleRender (s : MState) (file : String) (h : Inv s) :
    Inv (handleRender s file) := by
  obtain ⟨k, h1, h2, h3, h4, h5, h6, h7, h8, h9⟩ := h
  show Inv (nextRender { s with queue := s.queue ++ [Req.mk s.nextId (resolve1 file)],
                                nextId := s.nextId + 1 })
  apply inv_nextRender
  refine ⟨k, h1, ?_, ?_, ?_, h5, h6, ?_, h8, h9⟩
  · show (s.queue ++ [Req.mk s.nextId (resolve1 file)]).map Req.id
        = List.range' k (s.queue ++ [Req.mk s.nextId (resolve1 file)]).length
    rw [List.map_append, h2, List.length_append]
    simp [range'_snoc, h3]
  · show s.nextId + 1 = k + (s.queue ++ [Req.mk s.nextId (resolve1 file)]).length
    rw [List.length_append]
    simp
    omega
  · intro fl hfl
    have hfl' : s.current = some fl := hfl
    exact h4 fl hfl'
  · intro fl hfl c hcm
    have hfl' : s.current = some fl := hfl
    exact h7 fl hfl' c hcm

theorem inv_handleMessage (s : MState) (m : WMsg) (h : Inv s) : Inv (handleMessage s m) := by
  cases hc : s.current with
  | none =>
    have he : handleMessage s m = s := by
      unfold handleMessage
      rw [hc]
    rw [he]
    exact h
  | some fl =>
    cases hp : s.proc with
    | none =>
      have he : handleMessage s m = s := by
        unfold handleMessage
        rw [hc, hp]
      rw [he]
      exact h
    | some p =>
      cases hm : fl.msgAttached with
      | false =>
        have he : handleMessage s m = s := by
          unfold handleMessage
          rw [hc, hp]
          simp [hm]
        rw [he]
        exact h
      | true =>
        cases m with
        | log str =>
          have he : handleMessage s (WMsg.log str) =
              { s with current := some { fl with msgAttached := false },
                       logSink := s.logSink ++ [str] } := by
            unfold handleMessage
            rw [hc, hp]
            simp [hm]
          rw [he]
          obtain ⟨k, h1, h2, h3, h4, h5, h6, h7, h8, h9⟩ := h
          obtain ⟨hk, he1, he2, hpp⟩ := h4 fl hc
          refine ⟨k, h1, h2, h3, ?_, h5, h6, ?_, h8, h9⟩
          · intro fl' hfl'
            obtain rfl := Option.some.inj hfl'
            exact ⟨hk, he1, he2, hpp⟩
          · intro fl' hfl' c hcm
            obtain rfl := Option.some.inj hfl'
            exact h7 fl hc c hcm
        | css c mp er =>
          have he : handleMessage s (WMsg.css c mp er) =
              { nextRender { s with current := none } with completions :=
                  (nextRender { s with current := none }).completions
                    ++ [(fl.req.id, CbArg.success ⟨c, mp, er⟩)] } := by
            unfold handleMessage cleanup
            rw [hc, hp]
            simp [hm]
          rw [he]
          exact inv_cleanup_complete s { s with current := none } fl _ h hc rfl rfl rfl rfl
            (inv_clearCurrent s h)
        | error er =>
          have he : handleMessage s (WMsg.error er) =
              { nextRender { s with current := none } with completions :=
                  (nextRender { s with current := none }).completions
                    ++ [(fl.req.id, CbArg.errs [er])] } := by
            unfold handleMessage cleanup
            rw [hc, hp]
            simp [hm]
          rw [he]
          exact inv_cleanup_complete s { s with current := none } fl _ h hc rfl rfl rfl rfl
            (inv_clearCurrent s h)

theorem inv_handleProcError (s : MState) (er : JErr) (h : Inv s) :
    Inv (handleProcError s er) := by
  cases hc : s.current with
  | none =>
    have he : handleProcError s er = s := by
      unfold handleProcError
      rw [hc]
    rw [he]
    exact h
  | some fl =>
    cases hp : s.proc with
    | none =>
      have he : handleProcError s er = s := by
        unfold handleProcError
        rw [hc, hp]
      rw [he]
      exact h
    | some p =>
      have he : handleProcError s er =
          { nextRender { s with current := none } with completions :=
              (nextRender { s with current := none }).completions
                ++ [(fl.req.id, CbArg.raw er)] } := by
        unfold handleProcError cleanup
        rw [hc, hp]
      rw [he]
      exact inv_cleanup_complete s { s with current := none } fl _ h hc rfl rfl rfl rfl
        (inv_clearCurrent s h)

theorem inv_handleProcExit (s : MState) (code : Option Int) (signal : String) (h : Inv s) :
    Inv (handleProcExit s code signal) := by
  cases hp : s.proc with
  | none =>
    have he : handleProcExit s code signal = s := by
      unfold handleProcExit
      rw [hp]
    rw [he]
    exact h
  | some p =>
    cases hc : s.current with
    | none =>
      have he : handleProcExit s code signal =
          { s with proc := none, exited := s.exited ++ [p.pid] } := by
        unfold handleProcExit
        rw [hp, hc]
      rw [he]
      obtain ⟨k, h1, h2, h3, h4, h5, h6, h7, h8, h9⟩ := h
      refine ⟨k, h1, h2, h3, ?_, h5, h6, ?_, ?_, ?_⟩
      · intro fl hfl
        have hfl' : s.current = some fl := hfl
        rw [hc] at hfl'
        cases hfl'
      · intro fl hfl
        have hfl' : s.current = some fl := hfl
        rw [hc] at hfl'
        cases hfl'
      · intro q hq
        cases hq
      · intro e hmem
        have hmem' : e ∈ s.exited ++ [p.pid] := hmem
        rw [List.mem_append] at hmem'
        cases hmem' with
        | inl hm => exact h9 e hm
        | inr hm =>
          simp at hm
          rw [hm]
          exact (h8 p hp).2
    | some fl =>
      cases code with
      | some c0 =>
        have he : handleProcExit s (some c0) signal =
            nextRender { s with proc := none, exited := s.exited ++ [p.pid],
                                current := none } := by
          unfold handleProcExit cleanup
          rw [hp, hc]
        rw [he]
        exact inv_nextRender _ (inv_exitClear s p h hp)
      | none =>
        have he : handleProcExit s none signal =
            { nextRender { s with proc := none, exited := s.exited ++ [p.pid],
                                  current := none } with completions :=
                (nextRender { s with proc := none, exited := s.exited ++ [p.pid],
                                     current := none }).completions
                  ++ [(fl.req.id, CbArg.errs [fatalErrObj signal fl.req.file])] } := by
          unfold handleProcExit cleanup
          rw [hp, hc]
        rw [he]
        exact inv_cleanup_complete s
          { s with proc := none, exited := s.exited ++ [p.pid], current := none }
          fl _ h hc rfl rfl rfl rfl (inv_exitClear s p h hp)

theorem inv_handleTimeout (s : MState) (h : Inv s) : Inv (handleTimeout s) := by
  cases hc : s.current with
  | none =>
    have he : handleTimeout s = s := by
      unfold handleTimeout
      rw [hc]
    rw [he]
    exact h
  | some fl =>
    cases ht : fl.timerArmed with
    | false =>
      have he : handleTimeout s = s := by
        unfold handleTimeout
        rw [hc]
        simp [ht]
      rw [he]
      exact h
    | true =>
      obtain ⟨k, h1, h2, h3, h4, h5, h6, h7, h8, h9⟩ := h
      obtain ⟨hk, he1, he2, p, hp, hpid⟩ := h4 fl hc
      have he : handleTimeout s =
          { s with current := some { fl with timerArmed := false },
                   proc := some { p with killed := true } } := by
        unfold handleTimeout
        rw [hc]
        simp [ht, hp]
      rw [he]
      refine ⟨k, h1, h2, h3, ?_, h5, h6, ?_, ?_, h9⟩
      · intro fl' hfl'
        obtain rfl := Option.some.inj hfl'
        exact ⟨hk, he1, he2, ⟨{ p with killed := true }, rfl, hpid⟩⟩
      · intro fl' hfl' c hcm
        obtain rfl := Option.some.inj hfl'
        exact h7 fl hc c hcm
      · intro q hq
        obtain rfl := Option.some.inj hq
        exact h8 p hp

theorem inv_step (s : MState) (e : Event) (h : Inv s) : Inv (step s e) := by
  cases e with
  | render file => exact inv_handleRender s file h
  | message m => exact inv_handleMessage s m h
  | procError er => exact inv_handleProcError s er h
  | procExit code signal => exact inv_handleProcExit s code signal h
  | timeout => exact inv_handleTimeout s h

theorem inv_foldl (tr : List Event) (s : MState) (h : Inv s) : Inv (tr.foldl step s) := by
  induction tr generalizing s with
  | nil => exact h
  | cons e rest ih => exact ih (step s e) (inv_step s e h)

theorem inv_runEvents (tr : List Event) : Inv (runEvents tr) :=
  inv_foldl tr initState inv_initState

/-! ### Further consequences of the machine semantics -/

theorem range_append_range' (k n : Nat) :
    List.range k ++ List.range' k n = List.range (k + n) := by
  induction n with
  | zero => simp
  | succ n ih =>
    rw [range'_snoc, ← List.append_assoc, ih, ← List.range_succ]
    rfl

theorem nextRender_exited (t : MState) : (nextRender t).exited = t.exited := by
  unfold nextRender createChildProcess
  cases t.current <;> cases t.queue <;> cases t.proc <;> rfl

theorem nextRender_proc_of_procNone (t : MState) (hp : t.proc = none) :
    (nextRender t).proc = none ∨ (nextRender t).proc = some ⟨t.nextPid, false⟩ := by
  unfold nextRender createChildProcess
  cases t.current <;> cases hq : t.queue <;> rw [hp] <;> simp

/-- Shared characterization of a worker `exit` with `code === null` while
a request is in flight: the completion log is extended by exactly one
entry, the in-flight request's callback invoked with the single-element
fatal-crash error list. -/
theorem exit_none_completes (s : MState) (fl : InFlight) (sig : String) (h : Inv s)
    (hc : s.current = some fl) :
    (step s (Event.procExit none sig)).completions
      = s.completions ++ [(fl.req.id, CbArg.errs [fatalErrObj sig fl.req.file])] := by
  obtain ⟨k, h1, h2, h3, h4, h5, h6, h7, h8, h9⟩ := h
  obtain ⟨-, -, -, p, hp, -⟩ := h4 fl hc
  have he : step s (Event.procExit none sig) =
      { nextRender { s with proc := none, exited := s.exited ++ [p.pid], current := none }
        with completions :=
          (nextRender { s with proc := none, exited := s.exited ++ [p.pid],
                               current := none }).completions
            ++ [(fl.req.id, CbArg.errs [fatalErrObj sig fl.req.file])] } := by
    show handleProcExit s none sig = _
    unfold handleProcExit cleanup
    rw [hp, hc]
  rw [he]
  show (nextRender { s with proc := none, exited := s.exited ++ [p.pid],
                            current := none }).completions
      ++ [(fl.req.id, CbArg.errs [fatalErrObj sig fl.req.file])] = _
  rw [nextRender_completions]

/-! ### Lemmas about `removeSync` and `deleteTempFiles` -/

theorem not_mem_removeSync_self (dirs : List String) (d : String) :
    d ∉ removeSync dirs d := by
  intro hmem
  have := (List.mem_filter.mp hmem).2
  simp at this

theorem not_mem_removeSync_of (dirs : List String) (x y : String) (h : x ∉ dirs) :
    x ∉ removeSync dirs y := by
  intro hmem
  exact h (List.mem_filter.mp hmem).1

theorem not_mem_foldl_removeSync (x : String) (folders : List String) :
    ∀ dirs : List String, x ∉ dirs → x ∉ folders.foldl removeSync dirs := by
  induction folders with
  | nil => intro dirs h; exact h
  | cons f fs ih =>
    intro dirs h
    exact ih (removeSync dirs f) (not_mem_removeSync_of dirs x f h)

theorem mem_folders_not_mem_foldl (folders : List String) :
    ∀ dirs : List String, ∀ d ∈ folders, d ∉ folders.foldl removeSync dirs := by
  induction folders with
  | nil => intro dirs d hd; cases hd
  | cons f fs ih =>
    intro dirs d hd
    rw [List.mem_cons] at hd
    cases hd with
    | inl hdf =>
      rw [hdf]
      show f ∉ List.foldl removeSync (removeSync dirs f) fs
      exact not_mem_foldl_removeSync f fs (removeSync dirs f) (not_mem_removeSync_self dirs f)
    | inr hdm => exact ih (removeSync dirs f) d hdm

/-! ### Characterization of the render-mode `sources` rewrite -/

theorem renderSourcesAux (file outFolder : String) (sources : List String) :
    ∀ (k : Nat) (l : List String),
      sources.foldl
        (fun newSources source =>
          if pnormalize (presolve outFolder source) = file then
            prel outFolder file :: newSources
          else newSources ++ [prel outFolder (presolve outFolder source)])
        (List.replicate k (prel outFolder file) ++ l)
      = List.replicate
          (k + sources.countP (fun s => decide (pnormalize (presolve outFolder s) = file)))
          (prel outFolder file)
        ++ (l ++ (sources.filter
              (fun s => !(decide (pnormalize (presolve outFolder s) = file)))).map
             (fun s => prel outFolder (presolve outFolder s))) := by
  induction sources with
  | nil =>
    intro k l
    simp
  | cons s ss ih =>
    intro k l
    by_cases hp : pnormalize (presolve outFolder s) = file
    · have hacc : prel outFolder file :: (List.replicate k (prel outFolder file) ++ l)
          = List.replicate (k + 1) (prel outFolder file) ++ l := by
        simp [List.replicate_succ]
      rw [List.foldl_cons, if_pos hp, hacc, ih (k + 1) l]
      simp [List.countP_cons, hp, List.filter_cons]
      have harith : k + 1 + List.countP
            (fun s => decide (pnormalize (presolve outFolder s) = file)) ss
          = k + (List.countP
            (fun s => decide (pnormalize (presolve outFolder s) = file)) ss + 1) := by
        omega
      rw [harith]
    · have hacc : (List.replicate k (prel outFolder file) ++ l)
            ++ [prel outFolder (presolve outFolder s)]
          = List.replicate k (prel outFolder file)
            ++ (l ++ [prel outFolder (presolve outFolder s)]) := by
        rw [List.append_assoc]
      rw [List.foldl_cons, if_neg hp, hacc, ih k (l ++ [prel outFolder (presolve outFolder s)])]
      simp [List.countP_cons, hp, List.filter_cons, List.append_assoc]

/-! ### The claims -/

/-- C1: the claim states that every dispatched request's completion
callback is invoked exactly once, with an error list or a result,
"including a worker exit with a normal (non-null) exit code before any
terminal message".  The code violates this: `exitListener` invokes the
callback only when `code === null`; on a normal-code exit (for example,
exit code 1 from an uncaught exception in the worker before it sends any
message) it runs `cleanup()` — clearing the slot and advancing the
queue — and drops the callback.  This theorem evaluates the machine at
the failing input: one request is dispatched and its worker exits with
code 1 before any terminal message; the terminal event has been fully
processed (slot cleared, queue empty), yet zero completions were
recorded. -/
theorem c1_normal_exit_drops_completion :
    (runEvents [Event.render "/a.scss", Event.procExit (some 1) ""]).dispatched = [0] ∧
    (runEvents [Event.render "/a.scss", Event.procExit (some 1) ""]).current = none ∧
    (runEvents [Event.render "/a.scss", Event.procExit (some 1) ""]).queue = [] ∧
    (runEvents [Event.render "/a.scss", Event.procExit (some 1) ""]).completions = [] := by
  decide

/-- C2: at most one request is in flight at any time (structurally, the
in-flight slot is a single `Option`); in every reachable state the
dispatch log followed by the queued ids is exactly the submission order
`0, 1, …` (so request N+1 is never sent before request N has left the
slot, which only a terminal outcome clears), recorded completions are
strictly increasing in submission order, every completed request was
dispatched, and the in-flight request is always the most recently
dispatched one (no later request has been sent). -/
theorem c2_single_flight_fifo (tr : List Event) :
    (runEvents tr).dispatched ++ (runEvents tr).queue.map Req.id
        = List.range (runEvents tr).nextId ∧
    List.Pairwise (· < ·) ((runEvents tr).completions.map Prod.fst) ∧
    (∀ c ∈ (runEvents tr).completions.map Prod.fst, c ∈ (runEvents tr).dispatched) ∧
    (∀ fl, (runEvents tr).current = some fl →
        fl.req.id ∈ (runEvents tr).dispatched ∧
        ∀ d ∈ (runEvents tr).dispatched, d ≤ fl.req.id) := by
  obtain ⟨k, h1, h2, h3, h4, h5, h6, h7, h8, h9⟩ := inv_runEvents tr
  refine ⟨?_, h5, ?_, ?_⟩
  · rw [h1, h2, h3]
    exact range_append_range' k (runEvents tr).queue.length
  · intro c hcm
    rw [h1]
    exact List.mem_range.mpr (h6 c hcm)
  · intro fl hfl
    obtain ⟨hk, -, -, -⟩ := h4 fl hfl
    constructor
    · rw [h1]
      exact List.mem_range.mpr (by omega)
    · intro d hd
      rw [h1] at hd
      have := List.mem_range.mp hd
      omega

/-- Witness for C2: after two submissions with the first still in flight,
the first request (id 0) is the only dispatched one and is an upper bound
of the dispatch log. -/
theorem c2_single_flight_fifo_witness :
    (runEvents [Event.render "/a.scss", Event.render "/b.scss"]).current
        = some ⟨⟨0, "/a.scss"⟩, 0, true, true, true, true⟩ ∧
    ∀ d ∈ (runEvents [Event.render "/a.scss", Event.render "/b.scss"]).dispatched,
      d ≤ 0 := by
  refine ⟨by decide, ?_⟩
  exact ((c2_single_flight_fifo [Event.render "/a.scss", Event.render "/b.scss"]).2.2.2
      ⟨⟨0, "/a.scss"⟩, 0, true, true, true, true⟩ (by decide)).2

/-- C3: the claim states that any number of non-terminal `log` messages
are forwarded to the logging sink and leave the dispatch state (slot,
timer, attached listeners) unchanged, so a subsequent terminal message
still resolves the request.  The code violates this: the message listener
is attached with `childProcess.once("message", …)`, so the first `log`
message consumes it.  The log is forwarded, the slot and timer stay in
place, but the message listener is no longer attached, and the following
terminal `css` message resolves nothing: no completion is recorded and
the request stays in flight (it can only resolve later through the
timeout-kill exit path). -/
theorem c3_log_message_detaches_listener :
    (runEvents [Event.render "/a.scss", Event.message (WMsg.log "warning")]).logSink
        = ["warning"] ∧
    (runEvents [Event.render "/a.scss", Event.message (WMsg.log "warning")]).current
        = some ⟨⟨0, "/a.scss"⟩, 0, false, true, true, true⟩ ∧
    (runEvents [Event.render "/a.scss", Event.message (WMsg.log "warning"),
        Event.message (WMsg.css "c" "m" none)]).completions = [] ∧
    (runEvents [Event.render "/a.scss", Event.message (WMsg.log "warning"),
        Event.message (WMsg.css "c" "m" none)]).current
        = some ⟨⟨0, "/a.scss"⟩, 0, false, true, true, true⟩ := by
  decide

/-- C4: in any reachable state with a request in flight and its timeout
still armed, the timer firing force-kills the worker process
(`childProcess.kill()` — the handle is marked killed), and the abnormal
exit this produces (`code === null` with the terminating signal) resolves
the request through the ordinary abnormal-exit path: the completion is
the synthesized single-element fatal-crash error list, i.e. there is no
separate timeout error kind. -/
theorem c4_timeout_kills_and_resolves_as_crash (tr : List Event) (sig : String)
    (fl : InFlight) (hc : (runEvents tr).current = some fl)
    (ht : fl.timerArmed = true) :
    (∃ p, (step (runEvents tr) Event.timeout).proc = some p ∧ p.killed = true) ∧
    (step (step (runEvents tr) Event.timeout) (Event.procExit none sig)).completions
      = (runEvents tr).completions
          ++ [(fl.req.id, CbArg.errs [fatalErrObj sig fl.req.file])] := by
  have hInv := inv_runEvents tr
  obtain ⟨k, h1, h2, h3, h4, h5, h6, h7, h8, h9⟩ := hInv
  obtain ⟨hk, he1, he2, p, hp, hpid⟩ := h4 fl hc
  have he : step (runEvents tr) Event.timeout =
      { runEvents tr with current := some { fl with timerArmed := false },
                          proc := some { p with killed := true } } := by
    show handleTimeout (runEvents tr) = _
    unfold handleTimeout
    rw [hc]
    simp [ht, hp]
  constructor
  · exact ⟨{ p with killed := true }, by rw [he], rfl⟩
  · rw [he]
    have hInv1 : Inv { runEvents tr with current := some { fl with timerArmed := false },
                                         proc := some { p with killed := true } } := by
      rw [← he]
      exact inv_step (runEvents tr) Event.timeout (inv_runEvents tr)
    exact exit_none_completes _ { fl with timerArmed := false } sig hInv1 rfl

/-- Witness for C4: a single dispatched request whose timer fires and
whose killed worker then exits resolves with the fatal-crash error. -/
theorem c4_timeout_witness :
    (runEvents [Event.render "/a.scss"]).current
        = some ⟨⟨0, "/a.scss"⟩, 0, true, true, true, true⟩ ∧
    (∃ p, (step (runEvents [Event.render "/a.scss"]) Event.timeout).proc = some p ∧
        p.killed = true) ∧
    (step (step (runEvents [Event.render "/a.scss"]) Event.timeout)
        (Event.procExit none "SIGTERM")).completions
      = [(0, CbArg.errs [fatalErrObj "SIGTERM" "/a.scss"])] := by
  have h := c4_timeout_kills_and_resolves_as_crash [Event.render "/a.scss"] "SIGTERM"
      ⟨⟨0, "/a.scss"⟩, 0, true, true, true, true⟩ (by decide) rfl
  refine ⟨by decide, h.1, ?_⟩
  rw [h.2]
  decide

/-- C5 counterexample: the claim states the synthesized crash error has
the shape `{errorString, path: request.sourceFile, position: {line: 0},
message: errorString}`.  The code builds
`{errorString, path: renderMsg.file, pos: {ch: 0}, message: errorString}`
(lines 203–208): the object has a `pos` field holding `{ch: 0}` and no
`position` field at all.  At the concrete input — one request for
`/a.scss`, timeout, killed worker exit with `SIGTERM` — the recorded
completion's error object is not of the claimed shape for any
`errorString`. -/
theorem c5_counterexample_fatal_error_shape :
    (step (runEvents [Event.render "/a.scss", Event.timeout])
        (Event.procExit none "SIGTERM")).completions
      = [(0, CbArg.errs [fatalErrObj "SIGTERM" "/a.scss"])] ∧
    ¬ ∃ es : String,
        fatalErrObj "SIGTERM" "/a.scss"
          = [("errorString", EField.s es), ("path", EField.s "/a.scss"),
             ("position", EField.nObj "line" 0), ("message", EField.s es)] := by
  constructor
  · decide
  · rintro ⟨es, hshape⟩
    have h3 := congrArg (fun l => l.get? 2) hshape
    simp [fatalErrObj] at h3

/-- C5 amended: for every in-flight request whose worker exits with an
abnormal status (`code === null`), the completion callback receives a
single-element error list whose element has the shape
`{errorString, path: request.sourceFile, pos: {ch: 0}, message:
errorString}`, where `errorString` is
`"Fatal node-sass error, signal=" + signal`. -/
theorem c5_amended_fatal_error_shape (tr : List Event) (sig : String) (fl : InFlight)
    (hc : (runEvents tr).current = some fl) :
    (step (runEvents tr) (Event.procExit none sig)).completions
      = (runEvents tr).completions
          ++ [(fl.req.id, CbArg.errs
                [[("errorString", EField.s ("Fatal node-sass error, signal=" ++ sig)),
                  ("path", EField.s fl.req.file),
                  ("pos", EField.nObj "ch" 0),
                  ("message", EField.s ("Fatal node-sass error, signal=" ++ sig))]])] := by
  have h := exit_none_completes (runEvents tr) fl sig (inv_runEvents tr) hc
  simpa [fatalErrObj] using h

/-- Witness for C5 amended, at a concrete crash. -/
theorem c5_amended_witness :
    (step (runEvents [Event.render "/proj/src/a.scss"]) (Event.procExit none "SIGSEGV")).completions
      = [(0, CbArg.errs
            [[("errorString", EField.s "Fatal node-sass error, signal=SIGSEGV"),
              ("path", EField.s "/proj/src/a.scss"),
              ("pos", EField.nObj "ch" 0),
              ("message", EField.s "Fatal node-sass error, signal=SIGSEGV")]])] := by
  have h := c5_amended_fatal_error_shape [Event.render "/proj/src/a.scss"] "SIGSEGV"
      ⟨⟨0, "/proj/src/a.scss"⟩, 0, true, true, true, true⟩ (by decide)
  rw [h]
  decide

/-- C9: the persistent `exit` handler installed by `_createChildProcess`
clears the shared `_compilerProcess` handle on every worker exit, clean
or abnormal.  In every reachable state the held handle (there is at most
one — the field is a single `Option`) is never one of an already-exited
process, and after any `exit` event the handle is either cleared or
replaced by a freshly forked process: never killed, never previously
exited, and distinct from the process that just exited. -/
theorem c9_handle_cleared_on_exit (tr : List Event) (code : Option Int) (sig : String) :
    (∀ p, (runEvents tr).proc = some p → p.pid ∉ (runEvents tr).exited) ∧
    (∀ p, (runEvents tr).proc = some p →
        (step (runEvents tr) (Event.procExit code sig)).proc = none ∨
        ∃ q, (step (runEvents tr) (Event.procExit code sig)).proc = some q ∧
             q.pid ∉ (step (runEvents tr) (Event.procExit code sig)).exited ∧
             q.killed = false ∧ q.pid ≠ p.pid) := by
  obtain ⟨k, h1, h2, h3, h4, h5, h6, h7, h8, h9⟩ := inv_runEvents tr
  constructor
  · intro p hp
    exact (h8 p hp).1
  · intro p hp
    obtain ⟨hpe, hplt⟩ := h8 p hp
    cases hc : (runEvents tr).current with
    | none =>
      left
      show (handleProcExit (runEvents tr) code sig).proc = none
      unfold handleProcExit
      rw [hp, hc]
    | some fl =>
      have hfresh : ∀ u : MState, u.proc = none →
          u.nextPid = (runEvents tr).nextPid →
          u.exited = (runEvents tr).exited ++ [p.pid] →
          (nextRender u).proc = none ∨
          ∃ q, (nextRender u).proc = some q ∧ q.pid ∉ (nextRender u).exited ∧
               q.killed = false ∧ q.pid ≠ p.pid := by
        intro u hupr hunp huex
        rcases nextRender_proc_of_procNone u hupr with hnone | hsome
        · exact Or.inl hnone
        · right
          refine ⟨⟨u.nextPid, false⟩, hsome, ?_, rfl, ?_⟩
          · rw [nextRender_exited, huex]
            rw [List.mem_append]
            rintro (hm | hm)
            · rw [hunp] at hm
              exact absurd (h9 _ hm) (Nat.lt_irrefl _)
            · simp at hm
              omega
          · show u.nextPid ≠ p.pid
            omega
      cases code with
      | some c0 =>
        have he : step (runEvents tr) (Event.procExit (some c0) sig) =
            nextRender { runEvents tr with proc := none, exited := (runEvents tr).exited ++ [p.pid], current := none } := by
          show handleProcExit (runEvents tr) (some c0) sig = _
          unfold handleProcExit cleanup
          rw [hp, hc]
        rw [he]
        exact hfresh _ rfl rfl rfl
      | none =>
        have he : step (runEvents tr) (Event.procExit none sig) =
            { nextRender { runEvents tr with proc := none, exited := (runEvents tr).exited ++ [p.pid], current := none }
              with completions :=
                (nextRender { runEvents tr with proc := none, exited := (runEvents tr).exited ++ [p.pid], current := none }).completions
                  ++ [(fl.req.id, CbArg.errs [fatalErrObj sig fl.req.file])] } := by
          show handleProcExit (runEvents tr) none sig = _
          unfold handleProcExit cleanup
          rw [hp, hc]
        rw [he]
        exact hfresh _ rfl rfl rfl

/-- Witness for C9: one exiting worker with a queued request behind it:
the next dispatch obtains a fresh, never-exited, unkilled handle. -/
theorem c9_handle_witness :
    (⟨0, false⟩ : Proc).pid ∉ (runEvents [Event.render "/a.scss"]).exited ∧
    ((step (runEvents [Event.render "/a.scss", Event.render "/b.scss"])
        (Event.procExit none "SIGKILL")).proc = none ∨
     ∃ q, (step (runEvents [Event.render "/a.scss", Event.render "/b.scss"])
              (Event.procExit none "SIGKILL")).proc = some q ∧
          q.pid ∉ (step (runEvents [Event.render "/a.scss", Event.render "/b.scss"])
              (Event.procExit none "SIGKILL")).exited ∧
          q.killed = false ∧ q.pid ≠ (⟨0, false⟩ : Proc).pid) := by
  constructor
  · exact (c9_handle_cleared_on_exit [Event.render "/a.scss"] none "SIGKILL").1
      ⟨0, false⟩ (by decide)
  · exact (c9_handle_cleared_on_exit [Event.render "/a.scss", Event.render "/b.scss"]
      none "SIGKILL").2 ⟨0, false⟩ (by decide)

/-- C6: for every sources list handled by `render`'s source-map rewrite,
the rewritten list consists of the entries that resolve (and normalize)
to the compiled entry `file`, each re-expressed as `file` relative to the
output folder and moved to the front, followed by the remaining entries
in their original relative order, each re-expressed relative to the
output folder. -/
theorem c6_render_sources_rewrite (file outFolder : String) (sources : List String) :
    renderNewSources file outFolder sources
      = List.replicate
          (sources.countP (fun s => decide (pnormalize (presolve outFolder s) = file)))
          (prel outFolder file)
        ++ (sources.filter
              (fun s => !(decide (pnormalize (presolve outFolder s) = file)))).map
             (fun s => prel outFolder (presolve outFolder s)) := by
  have h := renderSourcesAux file outFolder sources 0 []
  simpa [renderNewSources] using h

/-- C7 counterexample: the claim states that every error whose path lies
inside the staging root is rewritten to the caller's real project path
and that the staging-root string no longer appears anywhere in the
rewritten message.  Both parts fail on the code at this concrete input
(staging root `/tmp/brackets-sass/d41d8` for entry file
`/proj/src/a.scss`): an error naming the staged copy of an imported file
`b.scss` — inside the staging root but not the staged entry file — keeps
its absolute staging path (`path.resolve(tmpFolder, error.path)` returns
an absolute path unchanged) instead of the project path
`/proj/src/b.scss`; and a message in which removing one occurrence of
the staging root joins surrounding text into a new occurrence still
contains the staging root after the single left-to-right replacement
pass of `_removePathFromErrorString`. -/
theorem c7_counterexample_staging_rewrite :
    insideStaging "/tmp/brackets-sass/d41d8"
        "/tmp/brackets-sass/d41d8/proj/src/b.scss" = true ∧
    (previewErrorRewrite "/proj/src/a.scss"
        "/tmp/brackets-sass/d41d8/proj/src/a.scss"
        "/tmp/brackets-sass/d41d8/proj/src"
        "/tmp/brackets-sass/d41d8"
        ⟨"/tmp/brackets-sass/d41d8/proj/src/b.scss",
         "//tmp/brackets-sass/d41d8tmp/brackets-sass/d41d8"⟩).path
      = "/tmp/brackets-sass/d41d8/proj/src/b.scss" ∧
    (previewErrorRewrite "/proj/src/a.scss"
        "/tmp/brackets-sass/d41d8/proj/src/a.scss"
        "/tmp/brackets-sass/d41d8/proj/src"
        "/tmp/brackets-sass/d41d8"
        ⟨"/tmp/brackets-sass/d41d8/proj/src/b.scss",
         "//tmp/brackets-sass/d41d8tmp/brackets-sass/d41d8"⟩).path
      ≠ stripStagingPrefix "/tmp/brackets-sass/d41d8"
          "/tmp/brackets-sass/d41d8/proj/src/b.scss" ∧
    containsSubstr
        (previewErrorRewrite "/proj/src/a.scss"
          "/tmp/brackets-sass/d41d8/proj/src/a.scss"
          "/tmp/brackets-sass/d41d8/proj/src"
          "/tmp/brackets-sass/d41d8"
          ⟨"/tmp/brackets-sass/d41d8/proj/src/b.scss",
           "//tmp/brackets-sass/d41d8tmp/brackets-sass/d41d8"⟩).message
        "/tmp/brackets-sass/d41d8" = true := by
  refine ⟨by decide, by decide, by decide, by decide⟩

/-- C7 amended: only an error whose normalized path equals the staged
copy of the entry file has its path rewritten to the caller's original
`file`; every other error path is resolved against the staging folder
(so an absolute path inside the staging tree other than the entry file
keeps its staging path, while a relative path is anchored in the staging
folder); and the rewritten message is the result of one global
left-to-right removal pass of the staging-root string (occurrences
re-formed by the removal may survive). -/
theorem c7_amended_staging_rewrite (file tmpFile tmpFolder tmpDirPath : String) (e : PErr)
    (hne : pnormalize e.path ≠ pnormalize tmpFile) :
    (previewErrorRewrite file tmpFile tmpFolder tmpDirPath e).path
      = presolve tmpFolder e.path ∧
    (previewErrorRewrite file tmpFile tmpFolder tmpDirPath e).message
      = removePathFromErrorString e.message tmpDirPath ∧
    ∀ e' : PErr, pnormalize e'.path = pnormalize tmpFile →
      (previewErrorRewrite file tmpFile tmpFolder tmpDirPath e').path = file := by
  refine ⟨?_, rfl, ?_⟩
  · unfold previewErrorRewrite
    simp [hne]
  · intro e' he'
    unfold previewErrorRewrite
    simp [he']

/-- Witness for C7 amended: a relative error path is anchored in the
staging folder, and the staging-root prefix is stripped from the
message, leaving the project-relative text. -/
theorem c7_amended_witness :
    (previewErrorRewrite "/proj/src/a.scss"
        "/tmp/brackets-sass/d41d8/proj/src/a.scss"
        "/tmp/brackets-sass/d41d8/proj/src"
        "/tmp/brackets-sass/d41d8"
        ⟨"b.scss", "error at /tmp/brackets-sass/d41d8/proj/src/b.scss:3"⟩).path
      = "/tmp/brackets-sass/d41d8/proj/src/b.scss" ∧
    (previewErrorRewrite "/proj/src/a.scss"
        "/tmp/brackets-sass/d41d8/proj/src/a.scss"
        "/tmp/brackets-sass/d41d8/proj/src"
        "/tmp/brackets-sass/d41d8"
        ⟨"b.scss", "error at /tmp/brackets-sass/d41d8/proj/src/b.scss:3"⟩).message
      = "error at /proj/src/b.scss:3" ∧
    (previewErrorRewrite "/proj/src/a.scss"
        "/tmp/brackets-sass/d41d8/proj/src/a.scss"
        "/tmp/brackets-sass/d41d8/proj/src"
        "/tmp/brackets-sass/d41d8"
        ⟨"/tmp/brackets-sass/d41d8/proj/src/a.scss", "x"⟩).path
      = "/proj/src/a.scss" := by
  have h := c7_amended_staging_rewrite "/proj/src/a.scss"
      "/tmp/brackets-sass/d41d8/proj/src/a.scss"
      "/tmp/brackets-sass/d41d8/proj/src"
      "/tmp/brackets-sass/d41d8"
      ⟨"b.scss", "error at /tmp/brackets-sass/d41d8/proj/src/b.scss:3"⟩ (by decide)
  refine ⟨?_, ?_, ?_⟩
  · rw [h.1]
    decide
  · rw [h.2.1]
    decide
  · exact h.2.2 ⟨"/tmp/brackets-sass/d41d8/proj/src/a.scss", "x"⟩ (by decide)

/-- C8: `deleteTempFiles` removes every staging directory registered in
`tmpFolders` since the last cleanup and clears the registry; calling it
again immediately operates on an empty registry and is the identity (a
no-op — and `removeSync` is total, so no error is raised on either
call). -/
theorem c8_deleteTempFiles_idempotent (st : TmpFS) :
    (∀ d ∈ st.tmpFolders, d ∉ (deleteTempFiles st).dirs) ∧
    (deleteTempFiles st).tmpFolders = [] ∧
    deleteTempFiles (deleteTempFiles st) = deleteTempFiles st := by
  refine ⟨?_, rfl, rfl⟩
  intro d hd
  exact mem_folders_not_mem_foldl st.tmpFolders st.dirs d hd

/-- Witness for C8: a registered staging directory is gone after the
first call, and the second call is the identity. -/
theorem c8_deleteTempFiles_witness :
    "/tmp/brackets-sass/aaa" ∉
      (deleteTempFiles ⟨["/proj/x", "/tmp/brackets-sass/aaa", "/tmp/brackets-sass/aaa/sub"],
        ["/tmp/brackets-sass/aaa"]⟩).dirs ∧
    deleteTempFiles (deleteTempFiles ⟨["/proj/x", "/tmp/brackets-sass/aaa",
        "/tmp/brackets-sass/aaa/sub"], ["/tmp/brackets-sass/aaa"]⟩)
      = deleteTempFiles ⟨["/proj/x", "/tmp/brackets-sass/aaa", "/tmp/brackets-sass/aaa/sub"],
        ["/tmp/brackets-sass/aaa"]⟩ := by
  constructor
  · exact (c8_deleteTempFiles_idempotent ⟨["/proj/x", "/tmp/brackets-sass/aaa",
      "/tmp/brackets-sass/aaa/sub"], ["/tmp/brackets-sass/aaa"]⟩).1
      "/tmp/brackets-sass/aaa" (by decide)
  · exact (c8_deleteTempFiles_idempotent ⟨["/proj/x", "/tmp/brackets-sass/aaa",
      "/tmp/brackets-sass/aaa/sub"], ["/tmp/brackets-sass/aaa"]⟩).2.2

/-- C10: `preview`'s completion callback reads `result.map.sources`
without first checking that `result.map` exists (`var map = result.map;
if (Array.isArray(map.sources))`, lines 350–352), so for every non-null
result lacking a `map` field the property access throws before the
caller's callback is reached: the embedded callback returns the
exception instead of an `(errors, result)` pair. -/
theorem c10_preview_missing_map_throws
    (file tmpFile tmpFolder tmpDirPath tmpOutFolder originalParent : String)
    (errors : Option (List PErr)) (r : PResult) (hmap : r.map = none) :
    previewRenderCb file tmpFile tmpFolder tmpDirPath tmpOutFolder originalParent
        errors (some r)
      = Except.error "TypeError: cannot read property sources of undefined" := by
  obtain ⟨css, rmap, rerr⟩ := r
  have hm : rmap = none := hmap
  subst hm
  cases errors <;> cases rerr <;> simp [previewRenderCb]

/-- Witness for C10 at a concrete mapless success result. -/
theorem c10_preview_missing_map_witness :
    previewRenderCb "/proj/src/a.scss" "/tmp/b/a.scss" "/tmp/b" "/tmp" "/tmp/out" "/proj/src"
        none (some ⟨"body", none, none⟩)
      = Except.error "TypeError: cannot read property sources of undefined" :=
  c10_preview_missing_map_throws "/proj/src/a.scss" "/tmp/b/a.scss" "/tmp/b" "/tmp"
    "/tmp/out" "/proj/src" none ⟨"body", none, none⟩ rfl

end SassDomain
